import Mathlib

/-!
Verification of the hashline line-reference core of the agent-stuff repository
(read_hashline / edit_hashline extension). The definitions below are a shallow
embedding of the TypeScript source: the MD5-based line fingerprint, the hash
index (a Map from line number to fingerprint, modelled as an association list
where the most recent set wins), the three-tier reference resolver, the edit
application engine, and the read-window selection logic.
-/

deriving instance DecidableEq for Except

namespace Hashline

/-! ### UTF-8 encoding (Node's createHash("md5").update(string) hashes UTF-8 bytes) -/

/-- UTF-8 encoding of one character, as a list of byte values. -/
def utf8Char (c : Char) : List Nat :=
  let n := c.toNat
  if n < 0x80 then [n]
  else if n < 0x800 then [0xC0 ||| (n >>> 6), 0x80 ||| (n &&& 0x3F)]
  else if n < 0x10000 then
    [0xE0 ||| (n >>> 12), 0x80 ||| ((n >>> 6) &&& 0x3F), 0x80 ||| (n &&& 0x3F)]
  else
    [0xF0 ||| (n >>> 18), 0x80 ||| ((n >>> 12) &&& 0x3F),
     0x80 ||| ((n >>> 6) &&& 0x3F), 0x80 ||| (n &&& 0x3F)]

/-- UTF-8 bytes of a string. -/
def utf8Bytes (s : String) : List Nat :=
  s.data.flatMap utf8Char

/-! ### MD5 over byte lists (all 32-bit arithmetic done in Nat with explicit mod) -/

/-- The 64 per-round MD5 sine-derived constants. -/
def md5K : List Nat :=
  [3614090360, 3905402710, 606105819, 3250441966, 4118548399, 1200080426,
   2821735955, 4249261313, 1770035416, 2336552879, 4294925233, 2304563134,
   1804603682, 4254626195, 2792965006, 1236535329, 4129170786, 3225465664,
   643717713, 3921069994, 3593408605, 38016083, 3634488961, 3889429448,
   568446438, 3275163606, 4107603335, 1163531501, 2850285829, 4243563512,
   1735328473, 2368359562, 4294588738, 2272392833, 1839030562, 4259657740,
   2763975236, 1272893353, 4139469664, 3200236656, 681279174, 3936430074,
   3572445317, 76029189, 3654602809, 3873151461, 530742520, 3299628645,
   4096336452, 1126891415, 2878612391, 4237533241, 1700485571, 2399980690,
   4293915773, 2240044497, 1873313359, 4264355552, 2734768916, 1309151649,
   4149444226, 3174756917, 718787259, 3951481745]

/-- The 64 per-round MD5 left-rotation amounts. -/
def md5S : List Nat :=
  [7, 12, 17, 22, 7, 12, 17, 22, 7, 12, 17, 22, 7, 12, 17, 22,
   5, 9, 14, 20, 5, 9, 14, 20, 5, 9, 14, 20, 5, 9, 14, 20,
   4, 11, 16, 23, 4, 11, 16, 23, 4, 11, 16, 23, 4, 11, 16, 23,
   6, 10, 15, 21, 6, 10, 15, 21, 6, 10, 15, 21, 6, 10, 15, 21]

/-- Bitwise complement within 32 bits. -/
def not32 (x : Nat) : Nat := 0xFFFFFFFF ^^^ (x % 2 ^ 32)

/-- Left rotation of a 32-bit value. -/
def rotl32 (x n : Nat) : Nat :=
  ((x <<< n) ||| (x >>> (32 - n))) % 2 ^ 32

/-- Nonlinear function and message index for MD5 round i on state words b c d. -/
def md5FG (i b c d : Nat) : Nat × Nat :=
  if i < 16 then ((b &&& c) ||| (not32 b &&& d), i)
  else if i < 32 then ((d &&& b) ||| (not32 d &&& c), (5 * i + 1) % 16)
  else if i < 48 then (b ^^^ c ^^^ d, (3 * i + 5) % 16)
  else (c ^^^ (b ||| not32 d), (7 * i) % 16)

/-- One of the 64 MD5 rounds; m is the 16-word message block. -/
def md5Round (m : List Nat) (st : Nat × Nat × Nat × Nat) (i : Nat) :
    Nat × Nat × Nat × Nat :=
  let (a, b, c, d) := st
  let (f, g) := md5FG i b c d
  let f' := (f + a + md5K.getD i 0 + m.getD g 0) % 2 ^ 32
  (d, (b + rotl32 f' (md5S.getD i 0)) % 2 ^ 32, b, c)

/-- Decode a 64-byte chunk into 16 little-endian 32-bit words. -/
def chunkWords (chunk : List Nat) : List Nat :=
  (List.range 16).map fun j =>
    chunk.getD (4 * j) 0 + chunk.getD (4 * j + 1) 0 * 2 ^ 8 +
    chunk.getD (4 * j + 2) 0 * 2 ^ 16 + chunk.getD (4 * j + 3) 0 * 2 ^ 24

/-- Compress one 64-byte chunk into the running MD5 state. -/
def md5Chunk (st : Nat × Nat × Nat × Nat) (chunk : List Nat) :
    Nat × Nat × Nat × Nat :=
  let m := chunkWords chunk
  let (a0, b0, c0, d0) := st
  let (a, b, c, d) := (List.range 64).foldl (md5Round m) (a0, b0, c0, d0)
  ((a0 + a) % 2 ^ 32, (b0 + b) % 2 ^ 32, (c0 + c) % 2 ^ 32, (d0 + d) % 2 ^ 32)

/-- Fold the MD5 compression over successive 64-byte chunks; the first
argument bounds the number of chunks so the recursion is structural. -/
def md5ChunksAux : Nat → Nat × Nat × Nat × Nat → List Nat → Nat × Nat × Nat × Nat
  | 0, st, _ => st
  | _ + 1, st, [] => st
  | fuel + 1, st, b :: rest =>
    md5ChunksAux fuel (md5Chunk st ((b :: rest).take 64)) ((b :: rest).drop 64)

/-- Fold the MD5 compression over all 64-byte chunks of a padded message. -/
def md5Chunks (st : Nat × Nat × Nat × Nat) (bytes : List Nat) :
    Nat × Nat × Nat × Nat :=
  md5ChunksAux (bytes.length / 64 + 1) st bytes

/-- MD5 padding: append 0x80, zero bytes up to 56 mod 64, then the 64-bit
little-endian bit length. -/
def md5Pad (msg : List Nat) : List Nat :=
  let bitLen := msg.length * 8 % 2 ^ 64
  let zeros := (119 - msg.length % 64) % 64
  msg ++ [0x80] ++ List.replicate zeros 0 ++
    (List.range 8).map (fun i => bitLen / 2 ^ (8 * i) % 2 ^ 8)

/-- Little-endian byte serialization of one 32-bit word. -/
def wordLEBytes (w : Nat) : List Nat :=
  [w % 2 ^ 8, w / 2 ^ 8 % 2 ^ 8, w / 2 ^ 16 % 2 ^ 8, w / 2 ^ 24 % 2 ^ 8]

/-- The 16-byte MD5 digest of a byte list. -/
def md5Bytes (msg : List Nat) : List Nat :=
  let (a, b, c, d) :=
    md5Chunks (0x67452301, 0xefcdab89, 0x98badcfe, 0x10325476) (md5Pad msg)
  wordLEBytes a ++ wordLEBytes b ++ wordLEBytes c ++ wordLEBytes d

/-- The sixteen lowercase hexadecimal digit characters. -/
def hexDigits : List Char := "0123456789abcdef".data

/-- Hexadecimal digit character for a nibble value. -/
def hexDigit (n : Nat) : Char := hexDigits.getD (n % 16) '0'

/-- Two hexadecimal characters for one byte, high nibble first. -/
def hexByte (b : Nat) : List Char := [hexDigit (b / 16), hexDigit b]

/-- Lowercase hexadecimal character rendering of the MD5 digest of a string
(the value of createHash("md5").update(content).digest("hex")). -/
def md5HexChars (content : String) : List Char :=
  (md5Bytes (utf8Bytes content)).flatMap hexByte

/-- Line fingerprint: first 6 hex characters of the MD5 digest of the line
content. The line number argument is deliberately ignored (content-only hash),
mirroring generateLineHash in the source. -/
def generateLineHash (content : String) (_lineNumber : Nat) : String :=
  String.mk ((md5HexChars content).take 6)


/-! ### Hash index: the Map from 1-indexed line number to fingerprint.
Modelled as an association list where the most recently set binding comes
first, so get returns the latest binding — exactly Map.get/Map.set. Entries
never set are absent (get returns none, as Map.get returns undefined). -/

/-- Map.get: the most recent binding for a key, if any. -/
def mapGet (m : List (Nat × String)) (k : Nat) : Option String :=
  (m.find? fun p => p.1 = k).map (·.2)

/-- Map.set: bind a key, replacing any previous binding. -/
def mapSet (m : List (Nat × String)) (k : Nat) (v : String) : List (Nat × String) :=
  (k, v) :: m.filter fun p => p.1 ≠ k

/-- The loop "for i in 0..lines.length-1: hashIndex.set(i+1, generateLineHash(lines[i], i+1))"
starting at line number i, applied on top of an existing map. -/
def rebuildFrom (m : List (Nat × String)) (lines : List String) (i : Nat) :
    List (Nat × String) :=
  match lines with
  | [] => m
  | l :: rest => rebuildFrom (mapSet m i (generateLineHash l i)) rest (i + 1)

/-! ### Errors thrown by the edit tool, one constructor per throw site. -/

/-- Error type for resolution and edit application; message gives the exact
thrown message text. -/
inductive EditError where
  | ambiguousNearby (lineNumber : Nat) (hash : String) (candidates : List Nat)
  | ambiguousGlobal (lineNumber : Nat) (hash : String) (candidates : List Nat)
  | hashNotFound (lineNumber : Nat) (hash : String)
  | invalidFormat (raw : String)
  | invalidFormatRange
  | lineOutOfRange (lineNumber : Nat) (total : Nat)
  | lineOutOfRangeAnon (total : Nat)
  | startOutOfRange
  | endOutOfRange
  | hashMismatchReplace (lineNumber : Nat)
  | hashMismatchDelete (lineNumber : Nat)
  deriving DecidableEq

/-- The exact message text of each thrown Error. -/
def EditError.message : EditError → String
  | .ambiguousNearby ln h cs =>
    "Ambiguous reference for line " ++ toString ln ++ " (" ++ h ++ "). Found " ++
    toString cs.length ++ " nearby candidates at lines: " ++
    String.intercalate ", " (cs.map toString) ++
    ". Please provide more context or read the file again."
  | .ambiguousGlobal ln h cs =>
    "Ambiguous reference for line " ++ toString ln ++ " (" ++ h ++ "). Found " ++
    toString cs.length ++ " global matches at lines: " ++
    String.intercalate ", " (cs.map toString) ++
    ". Multiple lines have identical content. Please provide more context or read the file again."
  | .hashNotFound ln h =>
    "Hash not found for line " ++ toString ln ++ " (" ++ h ++
    "). The line may have been deleted or the file may have been modified. Try reading the file again."
  | .invalidFormat raw => "Invalid line hash format: " ++ raw
  | .invalidFormatRange => "Invalid line hash format"
  | .lineOutOfRange ln total =>
    "Line number " ++ toString ln ++ " out of range (1-" ++ toString total ++ ")"
  | .lineOutOfRangeAnon total => "Line number out of range (1-" ++ toString total ++ ")"
  | .startOutOfRange => "Start line number out of range"
  | .endOutOfRange => "End line number out of range or before start"
  | .hashMismatchReplace ln =>
    "Hash mismatch for line " ++ toString ln ++
    ". File may have been modified since read_hashline was called."
  | .hashMismatchDelete ln =>
    "Hash mismatch for line " ++ toString ln ++ ". File may have been modified."

/-! ### Reference parsing and resolution -/

/-- Decimal digit test for the regex character class [0-9]. -/
def isDigitChar (c : Char) : Bool := '0' ≤ c ∧ c ≤ '9'

/-- Case-insensitive hexadecimal digit test for the regex character class
[a-f0-9] under the i flag. -/
def isHexChar (c : Char) : Bool :=
  ('0' ≤ c ∧ c ≤ '9') ∨ ('a' ≤ c ∧ c ≤ 'f') ∨ ('A' ≤ c ∧ c ≤ 'F')

/-- Decimal value of a digit string (parseInt base 10 on the matched digits). -/
def digitsToNat (cs : List Char) : Nat :=
  cs.foldl (fun acc ch => 10 * acc + (ch.toNat - 48)) 0

/-- Parse a reference token against the anchored case-insensitive regex
matching digits, a colon, and exactly six hex characters; the hash part keeps
its original case. -/
def parseLineHash (ref : String) : Option (Nat × String) :=
  let cs := ref.data
  let pre := cs.takeWhile fun c => c ≠ ':'
  match cs.dropWhile fun c => c ≠ ':' with
  | ':' :: hex =>
    if pre ≠ [] ∧ pre.all isDigitChar ∧ hex.length = 6 ∧ hex.all isHexChar then
      some (digitsToNat pre, String.mk hex)
    else
      none
  | _ => none

/-- Candidate line numbers for the local window search: line numbers within
10 of the reference, clamped to [1, lineCount], whose indexed fingerprint
equals the reference hash. -/
def nearbyCandidates (lineNumber : Nat) (hash : String) (lines : List String)
    (hashIndex : List (Nat × String)) : List Nat :=
  let nearbyStart := max 1 (lineNumber - 10)
  let nearbyEnd := min lines.length (lineNumber + 10)
  (List.range' nearbyStart (nearbyEnd + 1 - nearbyStart)).filter
    fun i => mapGet hashIndex i = some hash

/-- Candidate line numbers for the global search: every line number in
[1, lineCount] whose indexed fingerprint equals the reference hash. -/
def globalCandidates (hash : String) (lines : List String)
    (hashIndex : List (Nat × String)) : List Nat :=
  (List.range' 1 lines.length).filter fun i => mapGet hashIndex i = some hash

/-- The three-tier reference resolver: exact index match, then the
modified-lines override, then the ±10-line window search, then the global
search, failing on ambiguity or when nothing matches. -/
def resolveLineHash (ref : Nat × String) (lines : List String)
    (hashIndex : List (Nat × String)) (modifiedLines : List Nat) :
    Except EditError Nat :=
  let lineNumber := ref.1
  let hash := ref.2
  if mapGet hashIndex lineNumber = some hash then
    .ok lineNumber
  else if lineNumber ∈ modifiedLines then
    .ok lineNumber
  else
    match nearbyCandidates lineNumber hash lines hashIndex with
    | [c] => .ok c
    | [] =>
      match globalCandidates hash lines hashIndex with
      | [c] => .ok c
      | [] => .error (.hashNotFound lineNumber hash)
      | cs => .error (.ambiguousGlobal lineNumber hash cs)
    | cs => .error (.ambiguousNearby lineNumber hash cs)

/-! ### The edit-application engine -/

/-- The tagged union of edit operations accepted by edit_hashline. -/
inductive EditOp where
  | replace_line (lineHash : String) (newText : String)
  | replace_range (startHash : String) (endHash : String) (newLines : List String)
  | insert_after (lineHash : String) (newLines : List String)
  | delete_line (lineHash : String)
  | delete_range (startHash : String) (endHash : String)
  deriving DecidableEq

/-- The in-memory state threaded through one edit_hashline call: the line
buffer, the hash index, and the set of lines modified since the last full
index rebuild. -/
structure EditState where
  lines : List String
  hashIndex : List (Nat × String)
  modifiedLines : List Nat
  deriving DecidableEq

/-- The hash index built from scratch over a fresh buffer. -/
def initIndex (lines : List String) : List (Nat × String) :=
  rebuildFrom [] lines 1

/-- Split a character list at newline characters (buffer.split("\n")). -/
def splitNl : List Char → List (List Char)
  | [] => [[]]
  | c :: rest =>
    if c = '\n' then [] :: splitNl rest
    else
      match splitNl rest with
      | [] => [[c]]
      | h :: t => (c :: h) :: t

/-- The line buffer read from the file: its contents split on newlines. -/
def splitLines (content : String) : List String :=
  (splitNl content.data).map String.mk

/-- The state at the start of an edit_hashline call on the given file
contents: buffer split on newlines, fresh index, empty modified set. -/
def initState (content : String) : EditState :=
  ⟨splitLines content, initIndex (splitLines content), []⟩

/-- Verification loop for range operations: find the first line in the
inclusive range, not in the modified set, whose current fingerprint differs
from its index entry, and fail there. -/
def verifyRange (lines : List String) (hashIndex : List (Nat × String))
    (modifiedLines : List Nat) (startLine endLine : Nat)
    (mk : Nat → EditError) : Except EditError Unit :=
  match (List.range' startLine (endLine + 1 - startLine)).find? (fun i =>
      decide (i ∉ modifiedLines) &&
      decide (some (generateLineHash (lines.getD (i - 1) "") i) ≠ mapGet hashIndex i)) with
  | some i => .error (mk i)
  | none => .ok ()

/-- One iteration of the edit loop: apply a single operation to the state, or
fail exactly where the source throws. -/
def applyEdit (st : EditState) (edit : EditOp) : Except EditError EditState :=
  match edit with
  | .replace_line lineHash newText =>
    match parseLineHash lineHash with
    | none => .error (.invalidFormat lineHash)
    | some ref =>
      match resolveLineHash ref st.lines st.hashIndex st.modifiedLines with
      | .error e => .error e
      | .ok lineNumber =>
        if lineNumber < 1 ∨ lineNumber > st.lines.length then
          .error (.lineOutOfRange lineNumber st.lines.length)
        else
          .ok ⟨st.lines.set (lineNumber - 1) newText,
               mapSet st.hashIndex lineNumber (generateLineHash newText lineNumber),
               lineNumber :: st.modifiedLines⟩
  | .replace_range startHash endHash newLines =>
    match parseLineHash startHash, parseLineHash endHash with
    | some startRef, some endRef =>
      match resolveLineHash startRef st.lines st.hashIndex st.modifiedLines with
      | .error e => .error e
      | .ok startLn =>
        match resolveLineHash endRef st.lines st.hashIndex st.modifiedLines with
        | .error e => .error e
        | .ok endLn =>
          if startLn < 1 ∨ startLn > st.lines.length then
            .error .startOutOfRange
          else if endLn < startLn ∨ endLn > st.lines.length then
            .error .endOutOfRange
          else
            match verifyRange st.lines st.hashIndex st.modifiedLines startLn endLn
                .hashMismatchReplace with
            | .error e => .error e
            | .ok _ =>
              let newLs := st.lines.take (startLn - 1) ++ newLines ++ st.lines.drop endLn
              .ok ⟨newLs, rebuildFrom st.hashIndex newLs 1, []⟩
    | _, _ => .error .invalidFormatRange
  | .insert_after lineHash newLines =>
    match parseLineHash lineHash with
    | none => .error (.invalidFormat lineHash)
    | some ref =>
      match resolveLineHash ref st.lines st.hashIndex st.modifiedLines with
      | .error e => .error e
      | .ok lineNumber =>
        if lineNumber < 1 ∨ lineNumber > st.lines.length then
          .error (.lineOutOfRangeAnon st.lines.length)
        else
          let newLs := st.lines.take lineNumber ++ newLines ++ st.lines.drop lineNumber
          .ok ⟨newLs, rebuildFrom st.hashIndex newLs 1, []⟩
  | .delete_line lineHash =>
    match parseLineHash lineHash with
    | none => .error (.invalidFormat lineHash)
    | some ref =>
      match resolveLineHash ref st.lines st.hashIndex st.modifiedLines with
      | .error e => .error e
      | .ok lineNumber =>
        if lineNumber < 1 ∨ lineNumber > st.lines.length then
          .error (.lineOutOfRange lineNumber st.lines.length)
        else
          let newLs := st.lines.take (lineNumber - 1) ++ st.lines.drop lineNumber
          .ok ⟨newLs, rebuildFrom st.hashIndex newLs 1, []⟩
  | .delete_range startHash endHash =>
    match parseLineHash startHash, parseLineHash endHash with
    | some startRef, some endRef =>
      match resolveLineHash startRef st.lines st.hashIndex st.modifiedLines with
      | .error e => .error e
      | .ok startLn =>
        match resolveLineHash endRef st.lines st.hashIndex st.modifiedLines with
        | .error e => .error e
        | .ok endLn =>
          if startLn < 1 ∨ startLn > st.lines.length then
            .error .startOutOfRange
          else if endLn < startLn ∨ endLn > st.lines.length then
            .error .endOutOfRange
          else
            match verifyRange st.lines st.hashIndex st.modifiedLines startLn endLn
                .hashMismatchDelete with
            | .error e => .error e
            | .ok _ =>
              let newLs := st.lines.take (startLn - 1) ++ st.lines.drop endLn
              .ok ⟨newLs, rebuildFrom st.hashIndex newLs 1, []⟩
    | _, _ => .error .invalidFormatRange

/-- The edit loop: apply the operations in caller order, stopping at the
first failure. -/
def applyEdits (st : EditState) : List EditOp → Except EditError EditState
  | [] => .ok st
  | e :: rest =>
    match applyEdit st e with
    | .error er => .error er
    | .ok st' => applyEdits st' rest

/-- The in-memory part of an edit_hashline call: split the file into lines,
apply all edits, and produce the new file content to be written. -/
def executeEdit (content : String) (edits : List EditOp) : Except EditError String :=
  match applyEdits (initState content) edits with
  | .error e => .error e
  | .ok st => .ok (String.intercalate "\n" st.lines)

/-- Disk-level semantics of one edit_hashline call: the file content after
the call. The source performs its single writeFile only after the whole edit
loop has succeeded; every throw happens before that write, leaving the file
untouched. -/
def editFile (content : String) (edits : List EditOp) : String :=
  match executeEdit content edits with
  | .ok newContent => newContent
  | .error _ => content

/-! ### The read_hashline window selection -/

/-- Error thrown by the read tool when the requested offset starts past the
end of the file. -/
inductive ReadError where
  | offsetBeyondEnd (offset : Option Nat) (total : Nat)
  deriving DecidableEq

/-- Window selection of read_hashline: returns the 0-indexed [start, end)
window into the line list, or fails for an offset beyond the end of file.
The aroundLine/radius mode overrides offset/limit and performs no
end-of-file check. -/
def readSelect (allLines : List String) (offset limit aroundLine : Option Nat)
    (radius : Nat) : Except ReadError (Nat × Nat) :=
  match aroundLine with
  | some a => .ok (a - 1 - radius, min allLines.length (a + radius))
  | none =>
    let startLine :=
      match offset with
      | some o => if o ≠ 0 then max 0 (o - 1) else 0
      | none => 0
    if startLine ≥ allLines.length then
      .error (.offsetBeyondEnd offset allLines.length)
    else
      let endLine :=
        match limit with
        | some l => min (startLine + l) allLines.length
        | none => allLines.length
      .ok (startLine, endLine)

/-- The hash-tagged lines produced by read_hashline for the selected window
(before output truncation, which is an external utility). -/
def readHashline (allLines : List String) (offset limit aroundLine : Option Nat)
    (radius : Nat) : Except ReadError (List String) :=
  match readSelect allLines offset limit aroundLine radius with
  | .error e => .error e
  | .ok (startLine, endLine) =>
    let selected := (allLines.drop startLine).take (endLine - startLine)
    .ok (selected.mapIdx fun idx line =>
      toString (startLine + idx + 1) ++ ":" ++
        generateLineHash line (startLine + idx + 1) ++ "|" ++ line)

/-- The hash index of a state is accurate: it maps every line number in
[1, lineCount] to the fingerprint of the current buffer's line there. -/
def goodIndex (st : EditState) : Prop :=
  ∀ i, 1 ≤ i → i ≤ st.lines.length →
    mapGet st.hashIndex i = some (generateLineHash (st.lines.getD (i - 1) "") i)

/-- An 8-line file with pairwise distinct lines used against C7. -/
def c7file8 : String := "l1\nl2\nl3\nl4\nl5\nl6\nl7\nl8"

/-- A 9-line file with pairwise distinct lines used for the amended C7. -/
def c7file9 : String := "l1\nl2\nl3\nl4\nl5\nl6\nl7\nl8\nl9"

/-! ### Supporting lemmas -/

theorem generateLineHash_pin : generateLineHash "a" 1 = "0cc175" := by decide

theorem mapGet_mapSet (m : List (Nat × String)) (k j : Nat) (v : String) :
    mapGet (mapSet m k v) j = if j = k then some v else mapGet m j := by
  unfold mapGet mapSet
  by_cases h : j = k
  · subst h
    rw [List.find?_cons_of_pos _ (by simp)]
    simp
  · rw [if_neg h, List.find?_cons_of_neg _ (by simp [Ne.symm h])]
    congr 1
    induction m with
    | nil => rfl
    | cons p rest ih =>
      rw [List.filter_cons]
      by_cases hp : p.1 = k
      · rw [if_neg (by simp [hp]), List.find?_cons_of_neg _ (by simp [hp, Ne.symm h])]
        exact ih
      · rw [if_pos (by simp [hp])]
        by_cases hj : p.1 = j
        · rw [List.find?_cons_of_pos _ (by simp [hj]),
            List.find?_cons_of_pos _ (by simp [hj])]
        · rw [List.find?_cons_of_neg _ (by simp [hj]),
            List.find?_cons_of_neg _ (by simp [hj])]
          exact ih

theorem mapGet_rebuildFrom (lines : List String) :
    ∀ (m : List (Nat × String)) (i k : Nat),
      mapGet (rebuildFrom m lines i) k =
        if i ≤ k ∧ k < i + lines.length then
          some (generateLineHash (lines.getD (k - i) "") k)
        else mapGet m k := by
  induction lines with
  | nil =>
    intro m i k
    rw [show rebuildFrom m [] i = m from rfl, if_neg (by simp)]
  | cons l rest ih =>
    intro m i k
    rw [rebuildFrom, ih, mapGet_mapSet]
    simp only [List.length_cons]
    by_cases h1 : i + 1 ≤ k ∧ k < i + 1 + rest.length
    · rw [if_pos h1, if_pos (by omega)]
      have h2 : k - i = (k - (i + 1)) + 1 := by omega
      rw [h2, List.getD_cons_succ]
    · rw [if_neg h1]
      by_cases hk : k = i
      · subst hk
        rw [if_pos rfl, if_pos (by omega)]
        simp
      · rw [if_neg hk, if_neg (by omega)]

theorem mem_nearbyCandidates (ln : Nat) (hs : String) (lines : List String)
    (idx : List (Nat × String)) (i : Nat) :
    i ∈ nearbyCandidates ln hs lines idx ↔
      max 1 (ln - 10) ≤ i ∧ i ≤ min lines.length (ln + 10) ∧
        mapGet idx i = some hs := by
  unfold nearbyCandidates
  rw [List.mem_filter, List.mem_range'_1]
  simp only [decide_eq_true_eq]
  constructor
  · rintro ⟨⟨hl, hr⟩, hp⟩
    exact ⟨hl, by omega, hp⟩
  · rintro ⟨hl, hr, hp⟩
    exact ⟨⟨hl, by omega⟩, hp⟩

theorem mem_globalCandidates (hs : String) (lines : List String)
    (idx : List (Nat × String)) (i : Nat) :
    i ∈ globalCandidates hs lines idx ↔
      1 ≤ i ∧ i ≤ lines.length ∧ mapGet idx i = some hs := by
  unfold globalCandidates
  rw [List.mem_filter, List.mem_range'_1]
  simp only [decide_eq_true_eq]
  constructor
  · rintro ⟨⟨hl, hr⟩, hp⟩
    exact ⟨hl, by omega, hp⟩
  · rintro ⟨hl, hr, hp⟩
    exact ⟨⟨hl, by omega⟩, hp⟩

/-! ### Claim theorems -/

/-- C1: resolution follows the tiered order and returns the first decisive
result: an exact index match returns the reference's line number unchanged;
otherwise a line number in the modified set is returned as stated; otherwise
the local window search over line numbers within 10 of the reference, clamped
to the buffer, returns a unique hit; otherwise the global search returns a
unique hit; and if the global search finds zero hits the resolver fails with
the not-found error. The first two conjuncts characterize the two candidate
searches. -/
theorem c1_resolution_tier_order (ln : Nat) (hs : String) (lines : List String)
    (idx : List (Nat × String)) (mds : List Nat) :
    (∀ i, i ∈ nearbyCandidates ln hs lines idx ↔
        max 1 (ln - 10) ≤ i ∧ i ≤ min lines.length (ln + 10) ∧
          mapGet idx i = some hs)
    ∧ (∀ i, i ∈ globalCandidates hs lines idx ↔
        1 ≤ i ∧ i ≤ lines.length ∧ mapGet idx i = some hs)
    ∧ (mapGet idx ln = some hs →
        resolveLineHash (ln, hs) lines idx mds = .ok ln)
    ∧ (mapGet idx ln ≠ some hs → ln ∈ mds →
        resolveLineHash (ln, hs) lines idx mds = .ok ln)
    ∧ (mapGet idx ln ≠ some hs → ln ∉ mds →
        ∀ c, nearbyCandidates ln hs lines idx = [c] →
          resolveLineHash (ln, hs) lines idx mds = .ok c)
    ∧ (mapGet idx ln ≠ some hs → ln ∉ mds →
        nearbyCandidates ln hs lines idx = [] →
        ∀ c, globalCandidates hs lines idx = [c] →
          resolveLineHash (ln, hs) lines idx mds = .ok c)
    ∧ (mapGet idx ln ≠ some hs → ln ∉ mds →
        nearbyCandidates ln hs lines idx = [] →
        globalCandidates hs lines idx = [] →
        resolveLineHash (ln, hs) lines idx mds = .error (.hashNotFound ln hs)) := by
  refine ⟨mem_nearbyCandidates ln hs lines idx,
    mem_globalCandidates hs lines idx, ?_, ?_, ?_, ?_, ?_⟩
  · intro h1
    simp [resolveLineHash, h1]
  · intro h1 h2
    simp [resolveLineHash, h1, h2]
  · intro h1 h2 c h3
    simp [resolveLineHash, h1, h2, h3]
  · intro h1 h2 h3 c h4
    simp [resolveLineHash, h1, h2, h3, h4]
  · intro h1 h2 h3 h4
    simp [resolveLineHash, h1, h2, h3, h4]

/-- Witness for C1: a concrete exact match, a concrete local-window unique
hit, and a concrete not-found failure. -/
theorem c1_witness :
    resolveLineHash (1, "aaaaaa") ["x"] [(1, "aaaaaa")] [] = .ok 1
    ∧ resolveLineHash (2, "bbbbbb") ["x", "y"] [(1, "bbbbbb")] [] = .ok 1
    ∧ resolveLineHash (1, "cccccc") ["x"] [(1, "dddddd")] [] =
        .error (.hashNotFound 1 "cccccc") := by
  refine ⟨(c1_resolution_tier_order 1 "aaaaaa" ["x"] [(1, "aaaaaa")] []).2.2.1
      (by decide),
    (c1_resolution_tier_order 2 "bbbbbb" ["x", "y"] [(1, "bbbbbb")] []).2.2.2.2.1
      (by decide) (by decide) 1 (by decide),
    (c1_resolution_tier_order 1 "cccccc" ["x"] [(1, "dddddd")] []).2.2.2.2.2.2
      (by decide) (by decide) (by decide) (by decide)⟩

/-- C3: when resolution reaches the local-window search or the global search
and more than one line's fingerprint matches, the resolver fails with an
ambiguity error carrying exactly the list of all matching candidate line
numbers, and never returns any candidate. -/
theorem c3_ambiguity_listed_never_picked (ln : Nat) (hs : String)
    (lines : List String) (idx : List (Nat × String)) (mds : List Nat) :
    (mapGet idx ln ≠ some hs → ln ∉ mds →
      2 ≤ (nearbyCandidates ln hs lines idx).length →
      resolveLineHash (ln, hs) lines idx mds =
          .error (.ambiguousNearby ln hs (nearbyCandidates ln hs lines idx))
        ∧ (∀ i, i ∈ nearbyCandidates ln hs lines idx ↔
            max 1 (ln - 10) ≤ i ∧ i ≤ min lines.length (ln + 10) ∧
              mapGet idx i = some hs)
        ∧ ∀ c, resolveLineHash (ln, hs) lines idx mds ≠ .ok c)
    ∧ (mapGet idx ln ≠ some hs → ln ∉ mds →
      nearbyCandidates ln hs lines idx = [] →
      2 ≤ (globalCandidates hs lines idx).length →
      resolveLineHash (ln, hs) lines idx mds =
          .error (.ambiguousGlobal ln hs (globalCandidates hs lines idx))
        ∧ (∀ i, i ∈ globalCandidates hs lines idx ↔
            1 ≤ i ∧ i ≤ lines.length ∧ mapGet idx i = some hs)
        ∧ ∀ c, resolveLineHash (ln, hs) lines idx mds ≠ .ok c) := by
  constructor
  · intro h1 h2 hlen
    rcases hnc : nearbyCandidates ln hs lines idx with _ | ⟨a, _ | ⟨b, t⟩⟩
    · rw [hnc] at hlen
      simp at hlen
    · rw [hnc] at hlen
      simp at hlen
    · have hres : resolveLineHash (ln, hs) lines idx mds =
          .error (.ambiguousNearby ln hs (a :: b :: t)) := by
        simp [resolveLineHash, h1, h2, hnc]
      exact ⟨hres, fun i => by rw [← hnc]; exact mem_nearbyCandidates ln hs lines idx i,
        fun c => by rw [hres]; simp⟩
  · intro h1 h2 hnc hlen
    rcases hgc : globalCandidates hs lines idx with _ | ⟨a, _ | ⟨b, t⟩⟩
    · rw [hgc] at hlen
      simp at hlen
    · rw [hgc] at hlen
      simp at hlen
    · have hres : resolveLineHash (ln, hs) lines idx mds =
          .error (.ambiguousGlobal ln hs (a :: b :: t)) := by
        simp [resolveLineHash, h1, h2, hnc, hgc]
      exact ⟨hres, fun i => by rw [← hgc]; exact mem_globalCandidates hs lines idx i,
        fun c => by rw [hres]; simp⟩

/-- Witness for C3: a concrete local-window ambiguity over two identical
lines, and a concrete global ambiguity, each listing both candidates. -/
theorem c3_witness :
    resolveLineHash (1, "eeeeee") ["x", "y", "z"] [(2, "eeeeee"), (3, "eeeeee")] [] =
        .error (.ambiguousNearby 1 "eeeeee" [2, 3])
    ∧ resolveLineHash (1, "ffffff") (List.replicate 30 "x")
        [(20, "ffffff"), (25, "ffffff")] [] =
        .error (.ambiguousGlobal 1 "ffffff" [20, 25]) := by
  refine ⟨((c3_ambiguity_listed_never_picked 1 "eeeeee" ["x", "y", "z"]
      [(2, "eeeeee"), (3, "eeeeee")] []).1 (by decide) (by decide) (by decide)).1,
    ((c3_ambiguity_listed_never_picked 1 "ffffff" (List.replicate 30 "x")
      [(20, "ffffff"), (25, "ffffff")] []).2 (by decide) (by decide) (by decide)
      (by decide)).1⟩

theorem md5Bytes_length (msg : List Nat) : (md5Bytes msg).length = 16 := by
  rw [md5Bytes]
  rcases md5Chunks (0x67452301, 0xefcdab89, 0x98badcfe, 0x10325476) (md5Pad msg)
    with ⟨a, b, c, d⟩
  simp [wordLEBytes]

theorem length_flatMap_hexByte (l : List Nat) :
    (l.flatMap hexByte).length = 2 * l.length := by
  induction l with
  | nil => rfl
  | cons b rest ih =>
    simp only [List.flatMap_cons, List.length_append, List.length_cons, ih, hexByte,
      List.length_cons, List.length_nil]
    omega

theorem md5HexChars_length (s : String) : (md5HexChars s).length = 32 := by
  unfold md5HexChars
  rw [length_flatMap_hexByte, md5Bytes_length]

theorem hexDigit_mem (n : Nat) : hexDigit n ∈ hexDigits := by
  unfold hexDigit
  have h : n % 16 < hexDigits.length := by
    simp [hexDigits]
    omega
  rw [List.getD_eq_getElem _ _ h]
  exact List.getElem_mem h

theorem mem_md5HexChars {c : Char} {s : String} (hc : c ∈ md5HexChars s) :
    c ∈ hexDigits := by
  unfold md5HexChars at hc
  rw [List.mem_flatMap] at hc
  obtain ⟨b, _, hb⟩ := hc
  unfold hexByte at hb
  simp only [List.mem_cons, List.not_mem_nil, or_false] at hb
  rcases hb with h | h
  · rw [h]
    exact hexDigit_mem (b / 16)
  · rw [h]
    exact hexDigit_mem b

/-- C6: the fingerprint of any line text is a 6-character string of lowercase
hexadecimal digits, depends only on the text (repeated calls agree), and is
invariant under changing only the line number argument, so identical texts at
different positions share a fingerprint. -/
theorem c6_fingerprint_contract (s : String) (n m : Nat) :
    (generateLineHash s n).length = 6
    ∧ (∀ c ∈ (generateLineHash s n).data, c ∈ hexDigits)
    ∧ generateLineHash s n = generateLineHash s n
    ∧ generateLineHash s n = generateLineHash s m := by
  refine ⟨?_, ?_, rfl, rfl⟩
  · show (String.mk ((md5HexChars s).take 6)).length = 6
    simp [String.length, List.length_take, md5HexChars_length]
  · intro c hc
    exact mem_md5HexChars (List.take_subset 6 (md5HexChars s) hc)

/-- Witness for C6 at a concrete line text. -/
theorem c6_witness : (generateLineHash "a" 1).length = 6 ∧ '0' ∈ hexDigits :=
  ⟨(c6_fingerprint_contract "a" 1 1).1,
    (c6_fingerprint_contract "a" 1 1).2.1 '0' (by decide)⟩

theorem mem_generateLineHash {c : Char} {s : String} {n : Nat}
    (hc : c ∈ (generateLineHash s n).data) : c ∈ hexDigits :=
  mem_md5HexChars (List.take_subset 6 (md5HexChars s) hc)

theorem hexDigits_not_upper : ∀ c ∈ hexDigits, ¬('A' ≤ c ∧ c ≤ 'F') := by decide

/-- No fingerprint ever equals a string containing an uppercase A-F
character, since fingerprints are lowercase hexadecimal. -/
theorem generateLineHash_ne_upper (hs s : String) (n : Nat)
    (hu : ∃ c ∈ hs.data, 'A' ≤ c ∧ c ≤ 'F') : generateLineHash s n ≠ hs := by
  intro heq
  obtain ⟨c, hc, hAF⟩ := hu
  rw [← heq] at hc
  exact hexDigits_not_upper c (mem_generateLineHash hc) hAF

/-- C9: a reference token with uppercase hex passes the case-insensitive
parse with its case preserved, but since every emitted fingerprint is
lowercase hex and hash comparison is case-sensitive string equality, such a
hash can never equal a fingerprint, and for a line not in the modified set
resolution over an index of fingerprints fails with the not-found error. -/
theorem c9_uppercase_token_never_resolves :
    parseLineHash "12:A1B2C3" = some (12, "A1B2C3")
    ∧ (∀ (hs s : String) (n : Nat),
        (∃ c ∈ hs.data, 'A' ≤ c ∧ c ≤ 'F') → generateLineHash s n ≠ hs)
    ∧ (∀ (ln : Nat) (hs : String) (lines : List String)
        (idx : List (Nat × String)) (mds : List Nat),
        (∃ c ∈ hs.data, 'A' ≤ c ∧ c ≤ 'F') →
        ln ∉ mds →
        (∀ i v, mapGet idx i = some v → ∃ s n, v = generateLineHash s n) →
        resolveLineHash (ln, hs) lines idx mds =
          .error (.hashNotFound ln hs)) := by
  refine ⟨by decide, generateLineHash_ne_upper, ?_⟩
  intro ln hs lines idx mds hu hmod hidx
  have hne : ∀ i, ¬(mapGet idx i = some hs) := by
    intro i hi
    obtain ⟨s, n, hv⟩ := hidx i hs hi
    exact generateLineHash_ne_upper hs s n hu hv.symm
  have hnc : nearbyCandidates ln hs lines idx = [] := by
    unfold nearbyCandidates
    rw [List.filter_eq_nil_iff]
    intro a _
    simp only [decide_eq_true_eq]
    exact hne a
  have hgc : globalCandidates hs lines idx = [] := by
    unfold globalCandidates
    rw [List.filter_eq_nil_iff]
    intro a _
    simp only [decide_eq_true_eq]
    exact hne a
  simp [resolveLineHash, hne ln, hmod, hnc, hgc]

/-- Witness for C9 at the concrete uppercase token of the claim. -/
theorem c9_witness :
    generateLineHash "a" 1 ≠ "A1B2C3"
    ∧ resolveLineHash (1, "A1B2C3") ["a"] [] [] =
        .error (.hashNotFound 1 "A1B2C3") :=
  ⟨c9_uppercase_token_never_resolves.2.1 "A1B2C3" "a" 1 (by decide),
    c9_uppercase_token_never_resolves.2.2 1 "A1B2C3" ["a"] [] [] (by decide)
      (by decide) (fun i v h => by simp [mapGet] at h)⟩

theorem applyEdits_append (st : EditState) (l1 l2 : List EditOp) :
    applyEdits st (l1 ++ l2) =
      match applyEdits st l1 with
      | .error e => .error e
      | .ok st' => applyEdits st' l2 := by
  induction l1 generalizing st with
  | nil => rfl
  | cons op rest ih =>
    have hcons : ∀ (s : EditState) (l : List EditOp),
        applyEdits s (op :: l) =
          match applyEdit s op with
          | .error er => .error er
          | .ok st' => applyEdits st' l := fun s l => rfl
    rw [List.cons_append, hcons, hcons]
    cases applyEdit st op with
    | error e => rfl
    | ok st' => exact ih st'

/-- C2: if any operation in the batch fails (the first k operations having
succeeded), the whole call returns that error and the file on disk is
unchanged; the file content changes only when every operation in the batch
succeeds, in which case the computed content is written. -/
theorem c2_batch_atomicity (content : String) (edits : List EditOp) :
    (∀ (k : Nat) (hk : k < edits.length) (st : EditState) (e : EditError),
        applyEdits (initState content) (edits.take k) = .ok st →
        applyEdit st (edits.get ⟨k, hk⟩) = .error e →
        executeEdit content edits = .error e ∧
          editFile content edits = content)
    ∧ (∀ out, executeEdit content edits = .ok out → editFile content edits = out)
    ∧ (editFile content edits ≠ content →
        ∃ out, executeEdit content edits = .ok out) := by
  refine ⟨?_, ?_, ?_⟩
  · intro k hk st e htake hstep
    have hdrop : edits.drop k = edits.get ⟨k, hk⟩ :: edits.drop (k + 1) := by
      rw [List.get_eq_getElem]
      exact List.drop_eq_getElem_cons hk
    have hall : applyEdits (initState content) edits = .error e := by
      have hsplit := applyEdits_append (initState content) (edits.take k) (edits.drop k)
      rw [List.take_append_drop] at hsplit
      have hcons : applyEdits st (edits.get ⟨k, hk⟩ :: edits.drop (k + 1)) =
          match applyEdit st (edits.get ⟨k, hk⟩) with
          | .error er => .error er
          | .ok st' => applyEdits st' (edits.drop (k + 1)) := rfl
      rw [hsplit, htake, hdrop]
      show applyEdits st (edits.get ⟨k, hk⟩ :: List.drop (k + 1) edits) = .error e
      rw [hcons, hstep]
    have hexec : executeEdit content edits = .error e := by
      rw [executeEdit, hall]
    exact ⟨hexec, by rw [editFile, hexec]⟩
  · intro out hout
    rw [editFile, hout]
  · intro hne
    cases hexec : executeEdit content edits with
    | error e =>
      exact absurd (by rw [editFile, hexec]) hne
    | ok out => exact ⟨out, rfl⟩

/-- Witness for C2: a batch whose first operation has a malformed reference
leaves the concrete file content unchanged. -/
theorem c2_witness :
    executeEdit "a\nb" [EditOp.replace_line "zz" "y"] =
        .error (.invalidFormat "zz")
    ∧ editFile "a\nb" [EditOp.replace_line "zz" "y"] = "a\nb" :=
  (c2_batch_atomicity "a\nb" [EditOp.replace_line "zz" "y"]).1 0 (by decide)
    (initState "a\nb") (.invalidFormat "zz") rfl (by decide)

theorem goodIndex_rebuildFrom (m : List (Nat × String)) (lines : List String)
    (i : Nat) (h1 : 1 ≤ i) (h2 : i ≤ lines.length) :
    mapGet (rebuildFrom m lines 1) i =
      some (generateLineHash (lines.getD (i - 1) "") i) := by
  rw [mapGet_rebuildFrom, if_pos (by omega)]

theorem getD_set_self (l : List String) (n : Nat) (a d : String)
    (h : n < l.length) : (l.set n a).getD n d = a := by
  rw [List.getD_eq_getElem?_getD, List.getElem?_set_eq_of_lt a h]
  rfl

theorem getD_set_ne (l : List String) (n m : Nat) (a d : String)
    (h : n ≠ m) : (l.set n a).getD m d = l.getD m d := by
  rw [List.getD_eq_getElem?_getD, List.getD_eq_getElem?_getD,
    List.getElem?_set_ne h]

/-- Inversion on a successful single operation: a replace_line produces the
patched buffer, a patched index entry and an extended modified set, within
bounds; every other operation produces some new buffer together with a full
index rebuild over it and an empty modified set. -/
theorem applyEdit_ok_shape (st : EditState) (op : EditOp) (st' : EditState)
    (happly : applyEdit st op = .ok st') :
    (∃ lh nt ln, op = .replace_line lh nt ∧ 1 ≤ ln ∧ ln ≤ st.lines.length ∧
      st' = ⟨st.lines.set (ln - 1) nt,
             mapSet st.hashIndex ln (generateLineHash nt ln),
             ln :: st.modifiedLines⟩)
    ∨ ((∀ lh nt, op ≠ .replace_line lh nt) ∧
       ∃ newLs, st' = ⟨newLs, rebuildFrom st.hashIndex newLs 1, []⟩) := by
  cases op with
  | replace_line lh nt =>
    rcases hp : parseLineHash lh with _ | ref
    · simp only [applyEdit, hp] at happly
      exact Except.noConfusion happly
    · rcases hr : resolveLineHash ref st.lines st.hashIndex st.modifiedLines with e | ln
      · simp only [applyEdit, hp, hr] at happly
        exact Except.noConfusion happly
      · by_cases hb : ln < 1 ∨ ln > st.lines.length
        · simp only [applyEdit, hp, hr, if_pos hb] at happly
          exact Except.noConfusion happly
        · simp only [applyEdit, hp, hr, if_neg hb] at happly
          injection happly with h
          exact Or.inl ⟨lh, nt, ln, rfl, by omega, by omega, h.symm⟩
  | replace_range sh eh nls =>
    rcases hp1 : parseLineHash sh with _ | sref
    · simp only [applyEdit, hp1] at happly
      exact Except.noConfusion happly
    rcases hp2 : parseLineHash eh with _ | eref
    · simp only [applyEdit, hp1, hp2] at happly
      exact Except.noConfusion happly
    rcases hr1 : resolveLineHash sref st.lines st.hashIndex st.modifiedLines with e | s
    · simp only [applyEdit, hp1, hp2, hr1] at happly
      exact Except.noConfusion happly
    rcases hr2 : resolveLineHash eref st.lines st.hashIndex st.modifiedLines with e | en
    · simp only [applyEdit, hp1, hp2, hr1, hr2] at happly
      exact Except.noConfusion happly
    by_cases hb1 : s < 1 ∨ s > st.lines.length
    · simp only [applyEdit, hp1, hp2, hr1, hr2, if_pos hb1] at happly
      exact Except.noConfusion happly
    by_cases hb2 : en < s ∨ en > st.lines.length
    · simp only [applyEdit, hp1, hp2, hr1, hr2, if_neg hb1, if_pos hb2] at happly
      exact Except.noConfusion happly
    rcases hv : verifyRange st.lines st.hashIndex st.modifiedLines s en
        .hashMismatchReplace with e | u
    · simp only [applyEdit, hp1, hp2, hr1, hr2, if_neg hb1, if_neg hb2, hv] at happly
      exact Except.noConfusion happly
    simp only [applyEdit, hp1, hp2, hr1, hr2, if_neg hb1, if_neg hb2, hv] at happly
    injection happly with h
    exact Or.inr ⟨(fun _ _ hcon => nomatch hcon), ⟨_, h.symm⟩⟩
  | insert_after lh nls =>
    rcases hp : parseLineHash lh with _ | ref
    · simp only [applyEdit, hp] at happly
      exact Except.noConfusion happly
    rcases hr : resolveLineHash ref st.lines st.hashIndex st.modifiedLines with e | ln
    · simp only [applyEdit, hp, hr] at happly
      exact Except.noConfusion happly
    by_cases hb : ln < 1 ∨ ln > st.lines.length
    · simp only [applyEdit, hp, hr, if_pos hb] at happly
      exact Except.noConfusion happly
    simp only [applyEdit, hp, hr, if_neg hb] at happly
    injection happly with h
    exact Or.inr ⟨(fun _ _ hcon => nomatch hcon), ⟨_, h.symm⟩⟩
  | delete_line lh =>
    rcases hp : parseLineHash lh with _ | ref
    · simp only [applyEdit, hp] at happly
      exact Except.noConfusion happly
    rcases hr : resolveLineHash ref st.lines st.hashIndex st.modifiedLines with e | ln
    · simp only [applyEdit, hp, hr] at happly
      exact Except.noConfusion happly
    by_cases hb : ln < 1 ∨ ln > st.lines.length
    · simp only [applyEdit, hp, hr, if_pos hb] at happly
      exact Except.noConfusion happly
    simp only [applyEdit, hp, hr, if_neg hb] at happly
    injection happly with h
    exact Or.inr ⟨(fun _ _ hcon => nomatch hcon), ⟨_, h.symm⟩⟩
  | delete_range sh eh =>
    rcases hp1 : parseLineHash sh with _ | sref
    · simp only [applyEdit, hp1] at happly
      exact Except.noConfusion happly
    rcases hp2 : parseLineHash eh with _ | eref
    · simp only [applyEdit, hp1, hp2] at happly
      exact Except.noConfusion happly
    rcases hr1 : resolveLineHash sref st.lines st.hashIndex st.modifiedLines with e | s
    · simp only [applyEdit, hp1, hp2, hr1] at happly
      exact Except.noConfusion happly
    rcases hr2 : resolveLineHash eref st.lines st.hashIndex st.modifiedLines with e | en
    · simp only [applyEdit, hp1, hp2, hr1, hr2] at happly
      exact Except.noConfusion happly
    by_cases hb1 : s < 1 ∨ s > st.lines.length
    · simp only [applyEdit, hp1, hp2, hr1, hr2, if_pos hb1] at happly
      exact Except.noConfusion happly
    by_cases hb2 : en < s ∨ en > st.lines.length
    · simp only [applyEdit, hp1, hp2, hr1, hr2, if_neg hb1, if_pos hb2] at happly
      exact Except.noConfusion happly
    rcases hv : verifyRange st.lines st.hashIndex st.modifiedLines s en
        .hashMismatchDelete with e | u
    · simp only [applyEdit, hp1, hp2, hr1, hr2, if_neg hb1, if_neg hb2, hv] at happly
      exact Except.noConfusion happly
    simp only [applyEdit, hp1, hp2, hr1, hr2, if_neg hb1, if_neg hb2, hv] at happly
    injection happly with h
    exact Or.inr ⟨(fun _ _ hcon => nomatch hcon), ⟨_, h.symm⟩⟩

/-- C4: the hash index is accurate at the start of every edit call and after
each applied operation: it maps every line number in [1, currentLineCount] to
the current buffer's fingerprint there. A successful replace_line achieves
this by patching exactly the one changed entry on the old index, while every
other operation rebuilds the entry of every line of the new buffer and clears
the modified-lines set. -/
theorem c4_index_accurate :
    (∀ content, goodIndex (initState content))
    ∧ (∀ st op st', applyEdit st op = .ok st' → goodIndex st → goodIndex st')
    ∧ (∀ st op st', applyEdit st op = .ok st' →
        (∀ lh nt, op ≠ .replace_line lh nt) → st'.modifiedLines = []) := by
  refine ⟨?_, ?_, ?_⟩
  · intro content i h1 h2
    exact goodIndex_rebuildFrom [] (splitLines content) i h1 h2
  · intro st op st' happly hgood
    rcases applyEdit_ok_shape st op st' happly with
      ⟨lh, nt, ln, hop, hln1, hln2, hst'⟩ | ⟨hne, newLs, hst'⟩
    · subst hst'
      intro i h1 h2
      simp only [List.length_set] at h2
      show mapGet (mapSet st.hashIndex ln (generateLineHash nt ln)) i = _
      rw [mapGet_mapSet]
      by_cases hi : i = ln
      · subst hi
        rw [if_pos rfl]
        have : (st.lines.set (i - 1) nt).getD (i - 1) "" = nt :=
          getD_set_self st.lines (i - 1) nt "" (by omega)
        rw [show (⟨st.lines.set (i - 1) nt, mapSet st.hashIndex i
            (generateLineHash nt i), i :: st.modifiedLines⟩ : EditState).lines =
          st.lines.set (i - 1) nt from rfl, this]
      · rw [if_neg hi]
        have hgd : (st.lines.set (ln - 1) nt).getD (i - 1) "" =
            st.lines.getD (i - 1) "" :=
          getD_set_ne st.lines (ln - 1) (i - 1) nt "" (by omega)
        rw [show (⟨st.lines.set (ln - 1) nt, mapSet st.hashIndex ln
            (generateLineHash nt ln), ln :: st.modifiedLines⟩ : EditState).lines =
          st.lines.set (ln - 1) nt from rfl, hgd]
        exact hgood i h1 h2
    · subst hst'
      intro i h1 h2
      exact goodIndex_rebuildFrom st.hashIndex newLs i h1 h2
  · intro st op st' happly hne
    rcases applyEdit_ok_shape st op st' happly with
      ⟨lh, nt, ln, hop, _, _, _⟩ | ⟨_, newLs, hst'⟩
    · exact absurd hop (hne lh nt)
    · rw [hst']

/-- Witness for C4: the initial index of a concrete file is accurate, and it
stays accurate after a concrete delete_line operation. -/
theorem c4_witness :
    goodIndex (initState "a\nb")
    ∧ goodIndex (⟨["b"], [(1, "92eb5f"), (2, "92eb5f")], []⟩ : EditState) :=
  ⟨c4_index_accurate.1 "a\nb",
    c4_index_accurate.2.1 (initState "a\nb") (.delete_line "1:0cc175")
      ⟨["b"], [(1, "92eb5f"), (2, "92eb5f")], []⟩ (by decide)
      (c4_index_accurate.1 "a\nb")⟩

theorem verifyRange_spec (lines : List String) (idx : List (Nat × String))
    (mds : List Nat) (lo hi : Nat) (mk : Nat → EditError) :
    (verifyRange lines idx mds lo hi mk = .ok () ↔
      ¬ ∃ i, lo ≤ i ∧ i ≤ hi ∧ i ∉ mds ∧
        some (generateLineHash (lines.getD (i - 1) "") i) ≠ mapGet idx i)
    ∧ (∀ e, verifyRange lines idx mds lo hi mk = .error e →
        ∃ i, e = mk i ∧ lo ≤ i ∧ i ≤ hi ∧ i ∉ mds ∧
          some (generateLineHash (lines.getD (i - 1) "") i) ≠ mapGet idx i) := by
  unfold verifyRange
  cases hf : (List.range' lo (hi + 1 - lo)).find? (fun i =>
      decide (i ∉ mds) &&
      decide (some (generateLineHash (lines.getD (i - 1) "") i) ≠ mapGet idx i)) with
  | none =>
    constructor
    · constructor
      · intro _ hex
        obtain ⟨i, h1, h2, h3, h4⟩ := hex
        have hmem : i ∈ List.range' lo (hi + 1 - lo) := by
          rw [List.mem_range'_1]
          omega
        have := List.find?_eq_none.mp hf i hmem
        simp only [Bool.and_eq_true, decide_eq_true_eq] at this
        exact this ⟨h3, h4⟩
      · intro _
        rfl
    · intro e he
      exact Except.noConfusion he
  | some j =>
    constructor
    · constructor
      · intro hok
        exact Except.noConfusion hok
      · intro hno
        exfalso
        apply hno
        have hmem := List.mem_of_find?_eq_some hf
        have hpred := List.find?_some hf
        rw [List.mem_range'_1] at hmem
        simp only [Bool.and_eq_true, decide_eq_true_eq] at hpred
        exact ⟨j, by omega, by omega, hpred.1, hpred.2⟩
    · intro e he
      injection he with he
      have hmem := List.mem_of_find?_eq_some hf
      have hpred := List.find?_some hf
      rw [List.mem_range'_1] at hmem
      simp only [Bool.and_eq_true, decide_eq_true_eq] at hpred
      exact ⟨j, he.symm, by omega, by omega, hpred.1, hpred.2⟩

/-- C5: for replace_range and delete_range, once both endpoint references
resolve and the bounds checks pass, the operation fails with the
content-changed (hash mismatch) error exactly when some line of the resolved
inclusive range outside the modified set has a current fingerprint differing
from its index entry; otherwise the operation succeeds. -/
theorem c5_range_hash_verification (st : EditState) (sh eh : String)
    (nls : List String) (sref eref : Nat × String) (s en : Nat)
    (hp1 : parseLineHash sh = some sref) (hp2 : parseLineHash eh = some eref)
    (hr1 : resolveLineHash sref st.lines st.hashIndex st.modifiedLines = .ok s)
    (hr2 : resolveLineHash eref st.lines st.hashIndex st.modifiedLines = .ok en)
    (hb1 : 1 ≤ s) (hb2 : s ≤ en) (hb3 : en ≤ st.lines.length) :
    ((∃ i, applyEdit st (.replace_range sh eh nls) =
        .error (.hashMismatchReplace i)) ↔
      ∃ i, s ≤ i ∧ i ≤ en ∧ i ∉ st.modifiedLines ∧
        some (generateLineHash (st.lines.getD (i - 1) "") i) ≠
          mapGet st.hashIndex i)
    ∧ ((¬ ∃ i, s ≤ i ∧ i ≤ en ∧ i ∉ st.modifiedLines ∧
        some (generateLineHash (st.lines.getD (i - 1) "") i) ≠
          mapGet st.hashIndex i) →
        ∃ st', applyEdit st (.replace_range sh eh nls) = .ok st')
    ∧ ((∃ i, applyEdit st (.delete_range sh eh) =
        .error (.hashMismatchDelete i)) ↔
      ∃ i, s ≤ i ∧ i ≤ en ∧ i ∉ st.modifiedLines ∧
        some (generateLineHash (st.lines.getD (i - 1) "") i) ≠
          mapGet st.hashIndex i)
    ∧ ((¬ ∃ i, s ≤ i ∧ i ≤ en ∧ i ∉ st.modifiedLines ∧
        some (generateLineHash (st.lines.getD (i - 1) "") i) ≠
          mapGet st.hashIndex i) →
        ∃ st', applyEdit st (.delete_range sh eh) = .ok st') := by
  have hredR : applyEdit st (.replace_range sh eh nls) =
      (match verifyRange st.lines st.hashIndex st.modifiedLines s en
          .hashMismatchReplace with
      | .error e => .error e
      | .ok _ =>
        .ok ⟨st.lines.take (s - 1) ++ nls ++ st.lines.drop en,
             rebuildFrom st.hashIndex
               (st.lines.take (s - 1) ++ nls ++ st.lines.drop en) 1, []⟩) := by
    simp only [applyEdit, hp1, hp2, hr1, hr2, if_neg (by omega : ¬(s < 1 ∨ s > st.lines.length)),
      if_neg (by omega : ¬(en < s ∨ en > st.lines.length))]
  have hredD : applyEdit st (.delete_range sh eh) =
      (match verifyRange st.lines st.hashIndex st.modifiedLines s en
          .hashMismatchDelete with
      | .error e => .error e
      | .ok _ =>
        .ok ⟨st.lines.take (s - 1) ++ st.lines.drop en,
             rebuildFrom st.hashIndex
               (st.lines.take (s - 1) ++ st.lines.drop en) 1, []⟩) := by
    simp only [applyEdit, hp1, hp2, hr1, hr2, if_neg (by omega : ¬(s < 1 ∨ s > st.lines.length)),
      if_neg (by omega : ¬(en < s ∨ en > st.lines.length))]
  refine ⟨?_, ?_, ?_, ?_⟩
  · cases hv : verifyRange st.lines st.hashIndex st.modifiedLines s en
        .hashMismatchReplace with
    | error e =>
      obtain ⟨i, he, h1, h2, h3, h4⟩ :=
        (verifyRange_spec st.lines st.hashIndex st.modifiedLines s en
          .hashMismatchReplace).2 e hv
      rw [hredR, hv]
      subst he
      exact ⟨fun _ => ⟨i, h1, h2, h3, h4⟩, fun _ => ⟨i, rfl⟩⟩
    | ok u =>
      cases u
      rw [hredR, hv]
      constructor
      · rintro ⟨i, hcon⟩
        exact Except.noConfusion hcon
      · intro hex
        exact absurd hex (by
          intro hex2
          exact ((verifyRange_spec st.lines st.hashIndex st.modifiedLines s en
            .hashMismatchReplace).1.mp hv) hex2)
  · intro hno
    cases hv : verifyRange st.lines st.hashIndex st.modifiedLines s en
        .hashMismatchReplace with
    | error e =>
      obtain ⟨i, he, h1, h2, h3, h4⟩ :=
        (verifyRange_spec st.lines st.hashIndex st.modifiedLines s en
          .hashMismatchReplace).2 e hv
      exact absurd ⟨i, h1, h2, h3, h4⟩ hno
    | ok u =>
      cases u
      rw [hredR, hv]
      exact ⟨_, rfl⟩
  · cases hv : verifyRange st.lines st.hashIndex st.modifiedLines s en
        .hashMismatchDelete with
    | error e =>
      obtain ⟨i, he, h1, h2, h3, h4⟩ :=
        (verifyRange_spec st.lines st.hashIndex st.modifiedLines s en
          .hashMismatchDelete).2 e hv
      rw [hredD, hv]
      subst he
      exact ⟨fun _ => ⟨i, h1, h2, h3, h4⟩, fun _ => ⟨i, rfl⟩⟩
    | ok u =>
      cases u
      rw [hredD, hv]
      constructor
      · rintro ⟨i, hcon⟩
        exact Except.noConfusion hcon
      · intro hex
        exact absurd hex (by
          intro hex2
          exact ((verifyRange_spec st.lines st.hashIndex st.modifiedLines s en
            .hashMismatchDelete).1.mp hv) hex2)
  · intro hno
    cases hv : verifyRange st.lines st.hashIndex st.modifiedLines s en
        .hashMismatchDelete with
    | error e =>
      obtain ⟨i, he, h1, h2, h3, h4⟩ :=
        (verifyRange_spec st.lines st.hashIndex st.modifiedLines s en
          .hashMismatchDelete).2 e hv
      exact absurd ⟨i, h1, h2, h3, h4⟩ hno
    | ok u =>
      cases u
      rw [hredD, hv]
      exact ⟨_, rfl⟩

/-- Witness for C5: a concrete replace_range whose interior line was altered
out of band fails with the hash mismatch error. -/
theorem c5_witness :
    ∃ i, applyEdit (⟨["a", "b", "c"], [(1, "aaaaaa"), (3, "cccccc")], []⟩ : EditState)
        (.replace_range "1:aaaaaa" "3:cccccc" ["z"]) =
      .error (.hashMismatchReplace i) :=
  (c5_range_hash_verification ⟨["a", "b", "c"], [(1, "aaaaaa"), (3, "cccccc")], []⟩
      "1:aaaaaa" "3:cccccc" ["z"] (1, "aaaaaa") (3, "cccccc") 1 3
      (by decide) (by decide) (by decide) (by decide) (by decide) (by decide)
      (by decide)).1.mpr ⟨1, by decide, by decide, by decide, by decide⟩

/-- C8: a resolved in-bounds insert_after splices its new lines immediately
after the anchor line, leaving all existing lines' text unchanged; in
particular an anchor at the last line of the buffer succeeds (no out-of-range
error) and appends the new lines at end-of-file. -/
theorem c8_insert_after_splice (st : EditState) (lh : String) (nls : List String)
    (ref : Nat × String) (ln : Nat)
    (hp : parseLineHash lh = some ref)
    (hr : resolveLineHash ref st.lines st.hashIndex st.modifiedLines = .ok ln)
    (h1 : 1 ≤ ln) (h2 : ln ≤ st.lines.length) :
    applyEdit st (.insert_after lh nls) =
      .ok ⟨st.lines.take ln ++ nls ++ st.lines.drop ln,
           rebuildFrom st.hashIndex
             (st.lines.take ln ++ nls ++ st.lines.drop ln) 1, []⟩
    ∧ (ln = st.lines.length →
        st.lines.take ln ++ nls ++ st.lines.drop ln = st.lines ++ nls) := by
  constructor
  · simp only [applyEdit, hp, hr, if_neg (by omega : ¬(ln < 1 ∨ ln > st.lines.length))]
  · intro hlast
    subst hlast
    rw [List.take_length, List.drop_length, List.append_nil]

/-- Witness for C8: inserting after the last line of a concrete two-line
buffer appends at end-of-file. -/
theorem c8_witness :
    applyEdit (⟨["a", "b"], [(2, "ffffff")], []⟩ : EditState)
        (.insert_after "2:ffffff" ["x"]) =
      .ok ⟨["a", "b", "x"], rebuildFrom [(2, "ffffff")] ["a", "b", "x"] 1, []⟩ :=
  (c8_insert_after_splice ⟨["a", "b"], [(2, "ffffff")], []⟩ "2:ffffff" ["x"]
    (2, "ffffff") 2 (by decide) (by decide) (by decide) (by decide)).1

/-- C10: in the read tool, an offset greater than the line count fails with
the offset-beyond-end error, while an aroundLine greater than the line count
never fails: the clamped window still succeeds, and can produce empty
output. -/
theorem c10_offset_fails_aroundLine_clamps :
    (∀ (allLines : List String) (offset : Nat) (limit : Option Nat) (radius : Nat),
        allLines.length < offset →
        readHashline allLines (some offset) limit none radius =
          .error (.offsetBeyondEnd (some offset) allLines.length))
    ∧ (∀ (allLines : List String) (aroundLine radius : Nat),
        allLines.length < aroundLine →
        ∃ out, readHashline allLines none none (some aroundLine) radius = .ok out)
    ∧ readHashline ["a"] none none (some 100) 10 = .ok [] := by
  refine ⟨?_, ?_, by decide⟩
  · intro allLines offset limit radius hoff
    have h0x : offset ≠ 0 := by omega
    have hge : max 0 (offset - 1) ≥ allLines.length := by omega
    simp only [readHashline, readSelect, if_pos h0x, if_pos hge]
  · intro allLines aroundLine radius _
    exact ⟨_, rfl⟩

/-- Witness for C10: on a concrete one-line file, offset 2 fails while
aroundLine 100 succeeds. -/
theorem c10_witness :
    readHashline ["a"] (some 2) none none 10 =
        .error (.offsetBeyondEnd (some 2) 1)
    ∧ ∃ out, readHashline ["a"] none none (some 100) 10 = .ok out :=
  ⟨c10_offset_fails_aroundLine_clamps.1 ["a"] 2 none 10 (by decide),
    c10_offset_fails_aroundLine_clamps.2.1 ["a"] 100 10 (by decide)⟩

theorem filter_eq_singleton_of {p : Nat → Bool} {l : List Nat} {a : Nat}
    (hnd : l.Nodup) (ha : a ∈ l) (hp : ∀ i ∈ l, p i = true ↔ i = a) :
    l.filter p = [a] := by
  induction l with
  | nil => cases ha
  | cons b t ih =>
    rw [List.filter_cons]
    rcases List.mem_cons.mp ha with hba | hat
    · subst hba
      rw [if_pos ((hp a (List.mem_cons_self a t)).mpr rfl)]
      have ht : t.filter p = [] := by
        rw [List.filter_eq_nil_iff]
        intro i hit hpi
        have hib : i = a := (hp i (List.mem_cons_of_mem a hit)).mp hpi
        subst hib
        exact (List.nodup_cons.mp hnd).1 hit
      rw [ht]
    · have hba : b ≠ a := by
        intro hb
        subst hb
        exact (List.nodup_cons.mp hnd).1 hat
      rw [if_neg (fun hpb => hba ((hp b (List.mem_cons_self b t)).mp hpb))]
      exact ih (List.nodup_cons.mp hnd).2 hat
        (fun i hi => hp i (List.mem_cons_of_mem b hi))

theorem getD_splice_lt (lines : List String) (j : Nat) (hj : j < 4)
    (hlen : 4 ≤ lines.length) :
    (lines.take 4 ++ lines.drop 5).getD j "" = lines.getD j "" := by
  have h1 : (lines.take 4).length = 4 := by
    rw [List.length_take]
    omega
  rw [List.getD_eq_getElem?_getD, List.getD_eq_getElem?_getD,
    List.getElem?_append, if_pos (by rw [h1]; exact hj),
    List.getElem?_take, if_pos hj]

theorem getD_splice_ge (lines : List String) (j : Nat) (hj : 4 ≤ j)
    (hlen : 4 ≤ lines.length) :
    (lines.take 4 ++ lines.drop 5).getD j "" = lines.getD (j + 1) "" := by
  have h1 : (lines.take 4).length = 4 := by
    rw [List.length_take]
    omega
  rw [List.getD_eq_getElem?_getD, List.getD_eq_getElem?_getD,
    List.getElem?_append_right (by rw [h1]; exact hj), h1, List.getElem?_drop]
  have h2 : 5 + (j - 4) = j + 1 := by omega
  rw [h2]

theorem fp_ne_of_pairwise {lines : List String}
    (hdist : lines.Pairwise
      (fun a b => generateLineHash a 0 ≠ generateLineHash b 0))
    {i j : Nat} (hi : i < lines.length) (hj : j < lines.length) (hne : i ≠ j)
    (n m : Nat) :
    generateLineHash (lines.getD i "") n ≠ generateLineHash (lines.getD j "") m := by
  rw [List.getD_eq_getElem lines "" hi, List.getD_eq_getElem lines "" hj]
  have hpw := List.pairwise_iff_getElem.mp hdist
  rcases Nat.lt_or_ge i j with hlt | hge
  · exact hpw i j hi hj hlt
  · have hlt : j < i := by omega
    exact fun h => (hpw j i hj hi hlt) h.symm

/-- C7 (amended): for every file with at least 9 lines whose lines have
pairwise distinct fingerprints, a delete_line of line 5 removes that line
(shifting later content up by one), and a subsequent reference recorded as
(8, fingerprint of the original line 8) resolves to line 7. -/
theorem c7_amended_shift_resolution (lines : List String) (lh : String)
    (st' : EditState)
    (hlen : 9 ≤ lines.length)
    (hdist : lines.Pairwise
      (fun a b => generateLineHash a 0 ≠ generateLineHash b 0))
    (hp : parseLineHash lh = some (5, generateLineHash (lines.getD 4 "") 5))
    (happly : applyEdit ⟨lines, initIndex lines, []⟩ (.delete_line lh) = .ok st') :
    st'.lines = lines.take 4 ++ lines.drop 5
    ∧ resolveLineHash (8, generateLineHash (lines.getD 7 "") 8)
        st'.lines st'.hashIndex st'.modifiedLines = .ok 7 := by
  have hidx5 : mapGet (initIndex lines) 5 =
      some (generateLineHash (lines.getD 4 "") 5) :=
    goodIndex_rebuildFrom [] lines 5 (by omega) (by omega)
  have hres : resolveLineHash (5, generateLineHash (lines.getD 4 "") 5) lines
      (initIndex lines) [] = .ok 5 := by
    simp [resolveLineHash, hidx5]
  simp only [applyEdit, hp, hres, if_neg (by omega : ¬(5 < 1 ∨ 5 > lines.length))]
    at happly
  injection happly with hst
  subst hst
  refine ⟨rfl, ?_⟩
  show resolveLineHash (8, generateLineHash (lines.getD 7 "") 8)
      (lines.take 4 ++ lines.drop 5)
      (rebuildFrom (initIndex lines) (lines.take 4 ++ lines.drop 5) 1) [] = .ok 7
  set newLs := lines.take 4 ++ lines.drop 5 with hnew
  set idx' := rebuildFrom (initIndex lines) newLs 1 with hidx'
  set h8 := generateLineHash (lines.getD 7 "") 8 with hh8
  have hlen' : newLs.length = lines.length - 1 := by
    rw [hnew, List.length_append, List.length_take, List.length_drop]
    omega
  have hentry : ∀ i, 1 ≤ i → i ≤ newLs.length →
      mapGet idx' i = some (generateLineHash (newLs.getD (i - 1) "") i) :=
    fun i h1 h2 => goodIndex_rebuildFrom (initIndex lines) newLs i h1 h2
  have hcond : ¬(mapGet idx' 8 = some h8) := by
    rw [hentry 8 (by omega) (by omega)]
    have hg : newLs.getD 7 "" = lines.getD 8 "" :=
      getD_splice_ge lines 7 (by omega) (by omega)
    rw [hg]
    intro hcon
    have := Option.some.inj hcon
    exact fp_ne_of_pairwise hdist (by omega) (by omega) (by omega) 8 8 this
  have hnear : nearbyCandidates 8 h8 newLs idx' = [7] := by
    unfold nearbyCandidates
    have hse : max 1 (8 - 10) = 1 := by omega
    have hcount : min newLs.length (8 + 10) + 1 - max 1 (8 - 10) =
        min newLs.length 18 := by omega
    show (List.range' (max 1 (8 - 10))
        (min newLs.length (8 + 10) + 1 - max 1 (8 - 10))).filter
        (fun i => decide (mapGet idx' i = some h8)) = [7]
    rw [hcount, hse]
    apply filter_eq_singleton_of (List.nodup_range' 1 (min newLs.length 18))
    · rw [List.mem_range'_1]
      omega
    · intro i hil
      rw [List.mem_range'_1] at hil
      have hib : i ≤ newLs.length := by omega
      rw [hentry i (by omega) hib, decide_eq_true_eq, Option.some_inj]
      by_cases hi5 : i ≤ 4
      · have hg : newLs.getD (i - 1) "" = lines.getD (i - 1) "" :=
          getD_splice_lt lines (i - 1) (by omega) (by omega)
        rw [hg]
        constructor
        · intro hcon
          exact absurd hcon
            (fp_ne_of_pairwise hdist (by omega) (by omega) (by omega) i 8)
        · intro hi7
          omega
      · have hg : newLs.getD (i - 1) "" = lines.getD i "" := by
          have := getD_splice_ge lines (i - 1) (by omega) (by omega)
          have hii : i - 1 + 1 = i := by omega
          rw [hii] at this
          exact this
        rw [hg]
        constructor
        · intro hcon
          by_contra hne7
          exact fp_ne_of_pairwise hdist (by omega) (by omega)
            (by omega) i 8 hcon
        · intro hi7
          subst hi7
          rfl
  simp [resolveLineHash, hcond, hnear]

/-- Counterexample to C7 as stated: on an 8-line file with pairwise distinct
lines (and even pairwise distinct fingerprints), after delete_line removes
line 5, the reference (8, fingerprint of the original line 8) resolves to
line 8 — not to line 7 as the claim requires — because the Map-backed hash
index retains a stale entry for the old line number 8 that still matches, so
the exact-match tier fires. -/
theorem c7_counterexample :
    (splitLines c7file8).Pairwise (fun a b => a ≠ b)
    ∧ (splitLines c7file8).Pairwise
        (fun a b => generateLineHash a 0 ≠ generateLineHash b 0)
    ∧ (splitLines c7file8).length = 8
    ∧ (applyEdit (initState c7file8) (.delete_line "5:c53425")).toOption.map
        (fun st => (st.lines,
          resolveLineHash (8, generateLineHash "l8" 8) st.lines st.hashIndex
            st.modifiedLines)) =
      some (["l1", "l2", "l3", "l4", "l6", "l7", "l8"], .ok 8) := by
  decide

/-- Witness for the amended C7 on a concrete 9-line file. -/
theorem c7_witness :
    ∃ st' : EditState,
      applyEdit ⟨splitLines c7file9, initIndex (splitLines c7file9), []⟩
          (.delete_line "5:c53425") = .ok st'
      ∧ resolveLineHash (8, generateLineHash "l8" 8) st'.lines st'.hashIndex
          st'.modifiedLines = .ok 7 := by
  have h : applyEdit ⟨splitLines c7file9, initIndex (splitLines c7file9), []⟩
      (.delete_line "5:c53425") =
      .ok ⟨["l1", "l2", "l3", "l4", "l6", "l7", "l8", "l9"],
           [(8, "326d7b"), (7, "97f9f8"), (6, "a34c99"), (5, "54e5d4"),
            (4, "bdc1fe"), (3, "745e9c"), (2, "bec256"), (1, "377fd5"),
            (9, "326d7b")], []⟩ := by decide
  exact ⟨_, h, (c7_amended_shift_resolution (splitLines c7file9) "5:c53425" _
    (by decide) (by decide) (by decide) h).2⟩

end Hashline
